import Mathlib

/-!
Verification of the bible-dot-com scraper (src/main.py) against its
natural-language specification.

Shallow embedding conventions:
* Decoded JSON payloads are modelled by the inductive `Json`; Python
  truthiness tests (`if not data`) are modelled by `Json.falsy`.
* The HTTP layer is abstracted: `fetch_json_with_retries` takes a
  `script : Nat → AttemptOutcome` giving, for each 0-based attempt
  index, what the network does on that attempt (transport error,
  non-JSON body, or a decoded JSON payload).  `time.sleep` calls are
  recorded in the `waits` field instead of being performed.
* Parsed HTML is modelled by the inductive `Node` (tag, CSS classes,
  children); BeautifulSoup parsing of a fragment string is abstracted
  as a parameter `parse : String → Node` where it occurs.
* Python `str.isdigit` / `int(...)` are modelled for ASCII digit
  strings (`isDigits`, `digitsToNat`), `str.strip` by `pyStrip`.
* Machine integers do not overflow here (Python ints are unbounded),
  so chapter numbers are `Int`/`Nat`.
-/

/-! ## JSON documents (decoded payloads) -/

/-- A decoded JSON value, as produced by `resp.json()` in the source. -/
inductive Json where
  | null
  | bool (b : Bool)
  | num (n : Int)
  | str (s : String)
  | arr (items : List Json)
  | obj (entries : List (String × Json))

/-- Python truthiness of a decoded JSON value: `not data` is true exactly
for `None`-like and empty values. -/
def Json.falsy : Json → Bool
  | .null => true
  | .bool b => !b
  | .num n => n == 0
  | .str s => s == ""
  | .arr items => items.isEmpty
  | .obj entries => entries.isEmpty

/-- `d.get(k)` on a decoded JSON object: first entry with the given key. -/
def lookupKey (k : String) : List (String × Json) → Option Json
  | [] => none
  | (k2, v) :: rest => if k2 == k then some v else lookupKey k rest

/-! ## Resilient fetcher: `fetch_json_with_retries` (main.py lines 112-171) -/

/-- What the network does on one attempt of a fetch: a transport-level
failure (`requests.RequestException`), a response whose body fails JSON
decoding, or a response whose body decodes to the given payload. -/
inductive AttemptOutcome where
  | netErr
  | badBody
  | goodBody (payload : Json)

/-- Observable outcome of `fetch_json_with_retries`: the returned value
(`none` models the Python `return None` after exhausting retries), the
sequence of `time.sleep` durations performed, and the number of request
attempts issued. -/
structure FetchOut where
  result : Option Json
  waits : List Nat
  attemptsMade : Nat

/-- The body of the `for attempt in range(retries)` loop of
`fetch_json_with_retries`, with `left` attempts remaining and `attempt`
the current 0-based attempt index.  A payload that decodes is returned
immediately; a body that fails JSON decoding sleeps
`backoff * (attempt + 1)` seconds and retries; a transport error sleeps
`backoff` seconds and retries; falling off the loop returns `none`. -/
def fetchFrom (script : Nat → AttemptOutcome) (backoff : Nat) :
    Nat → Nat → FetchOut
  | 0, attempt => ⟨none, [], attempt⟩
  | left + 1, attempt =>
    match script attempt with
    | .goodBody p => ⟨some p, [], attempt + 1⟩
    | .badBody =>
      let r := fetchFrom script backoff left (attempt + 1)
      ⟨r.result, backoff * (attempt + 1) :: r.waits, r.attemptsMade⟩
    | .netErr =>
      let r := fetchFrom script backoff left (attempt + 1)
      ⟨r.result, backoff :: r.waits, r.attemptsMade⟩

/-- `fetch_json_with_retries(url, params, retries, backoff)`; the url and
params select the `script` (what the remote host answers for this
target), so they are absorbed into it. -/
def fetch_json_with_retries (script : Nat → AttemptOutcome)
    (retries : Nat) (backoff : Nat) : FetchOut :=
  fetchFrom script backoff retries 0

/-- True when the attempt yields a body that decodes as JSON. -/
def AttemptOutcome.isGood : AttemptOutcome → Bool
  | .goodBody _ => true
  | _ => false

/-! ## Request builder: `construct_json_url` (main.py lines 94-109) -/

/-- The query-parameter dict `{"versionId": version_id, "usfm": book_ch}`. -/
structure UrlParams where
  versionId : String
  usfm : String
deriving Repr, DecidableEq

/-- `construct_json_url`: pure construction of the chapter JSON endpoint
URL and its query parameters. -/
def construct_json_url (build_id locale version_id book : String)
    (chapter : Int) (version_code : String) (route : String) :
    String × UrlParams :=
  let book_ch := book ++ "." ++ toString chapter ++ "." ++ version_code
  ("https://www.bible.com/_next/data/" ++ build_id ++ "/" ++ locale ++ "/" ++
      route ++ "/" ++ version_id ++ "/" ++ book_ch ++ ".json",
    ⟨version_id, book_ch⟩)

/-- Modelled from the spec (section 4.2), not from the source: a request
builder that rejects an empty book code or a non-positive chapter number
with `InvalidTarget` (modelled as `none`) and otherwise agrees with
`construct_json_url`.  Used only to compare the implementation with the
claimed behaviour. -/
def construct_json_url_specified (build_id locale version_id book : String)
    (chapter : Int) (version_code : String) (route : String) :
    Option (String × UrlParams) :=
  if book = "" ∨ chapter ≤ 0 then none
  else some (construct_json_url build_id locale version_id book chapter
    version_code route)

/-! ## Catalog resolver: `fetch_books_and_chapters` (main.py lines 214-249)

The HTTP request and JSON decoding are abstracted; the resolver is
modelled on the decoded `books` array, each book a record with the
fields the source reads (`usfm`, `human`, `chapters[]` of
`{human, canonical}`, either of which may be absent, matching the
`.get` calls with defaults). -/

/-- One entry of a `chapters[]` array in the version metadata.  `human`
is the human-readable chapter label; `canonical` the canonical flag;
`none` models an absent key (the source reads both with `.get`). -/
structure ChapterMeta where
  human : Option String
  canonical : Option Bool

/-- One entry of the `books[]` array in the version metadata. -/
structure BookMeta where
  usfm : String
  human : String
  chapters : List ChapterMeta

/-- One output record of `fetch_books_and_chapters`. -/
structure BookEntry where
  book_code : String
  book_name : String
  chapters : List Nat
deriving Repr, DecidableEq

/-- Python `s.strip()`: drop leading and trailing whitespace.  (Defined
on the character list so that concrete instances reduce in the kernel;
`String.trim` does the same through iterators.) -/
def pyStrip (s : String) : String :=
  ⟨(((s.data.dropWhile Char.isWhitespace).reverse).dropWhile Char.isWhitespace).reverse⟩

/-- Python `s.isdigit()` for ASCII strings: non-empty and all characters
are decimal digits. -/
def isDigits (s : String) : Bool :=
  !s.data.isEmpty && s.data.all Char.isDigit

/-- Python `int(s)` on a decimal digit string. -/
def digitsToNat (cs : List Char) : Nat :=
  cs.foldl (fun acc c => acc * 10 + (c.toNat - 48)) 0

/-- The condition `ch.get("canonical", True) and ch_num.isdigit()` with
`ch_num = ch.get("human", "").strip()`. -/
def chapterPass (ch : ChapterMeta) : Bool :=
  (ch.canonical.getD true) && isDigits (pyStrip (ch.human.getD ""))

/-- The appended value `int(ch_num)`. -/
def chapterVal (ch : ChapterMeta) : Nat :=
  digitsToNat (pyStrip (ch.human.getD "")).data

/-- The chapter filter of `fetch_books_and_chapters`: keep an entry when
`ch.get("canonical", True)` is true and its stripped label is a digit
string, and map it to `int(ch_num)`. -/
def resolve_chapters (chs : List ChapterMeta) : List Nat :=
  chs.filterMap fun ch => if chapterPass ch then some (chapterVal ch) else none

/-- `fetch_books_and_chapters`, given the decoded `books` array of the
version metadata response. -/
def fetch_books_and_chapters (books : List BookMeta) : List BookEntry :=
  books.map fun b => ⟨b.usfm, b.human, resolve_chapters b.chapters⟩

/-! ## Verse extraction: `extract_verses_from_chapter_html`
(main.py lines 174-195)

The chapter fragment is modelled after BeautifulSoup parsing: an
element tree with tag names, CSS classes and text nodes. -/

/-- A parsed markup node: a text node or an element with tag, classes
and children. -/
inductive Node where
  | text (s : String)
  | elem (tag : String) (classes : List String) (children : List Node)

/-- One extracted verse record: `{"verse": num, "text": text}` where the
label is `None` when no label sub-element exists. -/
structure VerseRecord where
  verse : Option String
  text : String
deriving Repr, DecidableEq

/-- Does this element match the CSS selector `tag.cls`? -/
def matchesSel (tag cls : String) : Node → Bool
  | .text _ => false
  | .elem t cs _ => t == tag && cs.contains cls

/-- Remove every `span.note` node from a forest, recursively: the
effect of the `note.decompose()` loop on the children of a container. -/
def stripNotesList : List Node → List Node
  | [] => []
  | .text s :: rest => .text s :: stripNotesList rest
  | .elem t cs ch :: rest =>
    if matchesSel "span" "note" (.elem t cs ch) then stripNotesList rest
    else .elem t cs (stripNotesList ch) :: stripNotesList rest

/-- Remove every `span.note` descendant of one node, modelling the
`note.decompose()` loop run on a verse container (the node itself is
kept: `v.select` only matches descendants). -/
def stripNotes : Node → Node
  | .text s => .text s
  | .elem t cs ch => .elem t cs (stripNotesList ch)

mutual
/-- All text-node strings of a subtree in document order (what
BeautifulSoup `get_text` iterates over). -/
def textsOf : Node → List String
  | .text s => [s]
  | .elem _ _ ch => textsOfList ch

def textsOfList : List Node → List String
  | [] => []
  | c :: rest => textsOf c ++ textsOfList rest
end

/-- BeautifulSoup `get_text(separator=" ", strip=True)`: strip each text
segment, drop the empty ones, join with a single space. -/
def getTextSep (n : Node) : String :=
  String.intercalate " " (((textsOf n).map pyStrip).filter (fun s => !s.isEmpty))

/-- BeautifulSoup `.text`: plain concatenation of all text segments. -/
def getTextAll (n : Node) : String :=
  String.join (textsOf n)

mutual
/-- First descendant (document order) matching `tag.cls`, the node
itself excluded: BeautifulSoup `select_one`. -/
def selectFirst (tag cls : String) : Node → Option Node
  | .text _ => none
  | .elem _ _ ch => selectFirstList tag cls ch

def selectFirstList (tag cls : String) : List Node → Option Node
  | [] => none
  | c :: rest =>
    if matchesSel tag cls c then some c
    else
      match selectFirst tag cls c with
      | some x => some x
      | none => selectFirstList tag cls rest
end

/-- The per-container body of the `for v in soup.select("span.verse")`
loop: decompose the notes, read the optional label and content
sub-elements, fall back to the full container text, and keep the record
only when the text is non-empty. -/
def extractVerse (v : Node) : Option VerseRecord :=
  let v2 := stripNotes v
  let label_tag := selectFirst "span" "label" v2
  let content_tag := selectFirst "span" "content" v2
  let num := label_tag.map (fun l => pyStrip (getTextAll l))
  let text :=
    match content_tag with
    | none => getTextSep v2
    | some c => getTextSep c
  if text.isEmpty then none else some ⟨num, text⟩

/-- Walk a forest in document order, emitting one record per
`span.verse` container as the `soup.select("span.verse")` iteration
does.  `underVerse` records whether some ancestor is a verse container;
`doomed` records whether some ancestor `span.note` lies below a verse
container — such a subtree is destroyed by `decompose()` before its own
containers are visited, so they contribute nothing. -/
def extractRecordsList (underVerse doomed : Bool) :
    List Node → List VerseRecord
  | [] => []
  | .text _ :: rest => extractRecordsList underVerse doomed rest
  | .elem t cs ch :: rest =>
    (if matchesSel "span" "verse" (.elem t cs ch) &&
        !(doomed || (matchesSel "span" "note" (.elem t cs ch) && underVerse)) then
      (extractVerse (.elem t cs ch)).toList
    else [])
      ++ extractRecordsList (underVerse || matchesSel "span" "verse" (.elem t cs ch))
          (doomed || (matchesSel "span" "note" (.elem t cs ch) && underVerse)) ch
      ++ extractRecordsList underVerse doomed rest

/-- `extract_verses_from_chapter_html` on the parsed fragment. -/
def extract_verses_from_chapter_html (root : Node) : List VerseRecord :=
  extractRecordsList false false [root]

/-- Replace the children of every `span.note` element lying strictly
below a `span.verse` element with the empty list, across a forest.
This erases exactly the footnote content that
`extract_verses_from_chapter_html` decomposes, and is used to state
that such content never reaches the output. -/
def eraseNoteContentsList (underVerse : Bool) : List Node → List Node
  | [] => []
  | .text s :: rest => .text s :: eraseNoteContentsList underVerse rest
  | .elem t cs ch :: rest =>
    (if matchesSel "span" "note" (.elem t cs ch) && underVerse then
        Node.elem t cs []
      else
        Node.elem t cs
          (eraseNoteContentsList
            (underVerse || matchesSel "span" "verse" (.elem t cs ch)) ch))
      :: eraseNoteContentsList underVerse rest

/-- `eraseNoteContentsList` on one node. -/
def eraseNoteContents (underVerse : Bool) : Node → Node
  | .text s => .text s
  | .elem t cs ch =>
    if matchesSel "span" "note" (.elem t cs ch) && underVerse then
      .elem t cs []
    else
      .elem t cs
        (eraseNoteContentsList
          (underVerse || matchesSel "span" "verse" (.elem t cs ch)) ch)

/-! ## Locating the fragment inside a chapter document
(main.py lines 307-335) -/

mutual
/-- The fallback `find_content` search: depth-first over objects and
arrays for the first key literally equal to `"content"` whose value is
a string; a recursive hit equal to the empty string is falsy in the
`if found:` test and is skipped. -/
def find_content : Json → Option String
  | .obj kvs => find_content_obj kvs
  | .arr xs => find_content_arr xs
  | _ => none

def find_content_obj : List (String × Json) → Option String
  | [] => none
  | (k, v) :: rest =>
    if k == "content" then
      match v with
      | .str s => some s
      | _ =>
        match find_content v with
        | some s => if s == "" then find_content_obj rest else some s
        | none => find_content_obj rest
    else
      match find_content v with
      | some s => if s == "" then find_content_obj rest else some s
      | none => find_content_obj rest

def find_content_arr : List Json → Option String
  | [] => none
  | x :: rest =>
    match find_content x with
    | some s => if s == "" then find_content_arr rest else some s
    | none => find_content_arr rest
end

/-- The primary lookup
`data.get("pageProps", {}).get("chapterInfo", {}).get("content")`.
`Except.error` models a raised exception (a `.get` on a non-dict),
which the source catches and turns into `html_content = None` without
running the fallback search. -/
def primaryContent (data : Json) : Except Unit (Option Json) :=
  match data with
  | .obj kvs =>
    match (lookupKey "pageProps" kvs).getD (.obj []) with
    | .obj kvs2 =>
      match (lookupKey "chapterInfo" kvs2).getD (.obj []) with
      | .obj kvs3 => .ok (lookupKey "content" kvs3)
      | _ => .error ()
    | _ => .error ()
  | _ => .error ()

/-- The final value of `html_content` for a fetched document: the
primary lookup if it produced a truthy value, otherwise the fallback
search (an exception anywhere yields `None`). -/
def computeHtmlContent (data : Json) : Option Json :=
  match primaryContent data with
  | .error _ => none
  | .ok v0 =>
    match v0 with
    | some v => if v.falsy then (find_content data).map .str else some v
    | none => (find_content data).map .str

/-! ## Book accumulator and stop policy: the chapter loop of
`scrape_version` (main.py lines 294-366) -/

/-- Classification of one iteration of the chapter loop, as decided by
the source in order: falsy fetch result → skip; falsy or absent
`html_content` → break; non-string truthy `html_content` → the
`BeautifulSoup(html_content, ...)` call raises (uncaught) after the raw
append; otherwise extract verses and record them when non-empty. -/
inductive StepClass where
  | fetchFail
  | contentAbsent
  | crashStep (v : Json)
  | emptyVerses (frag : String)
  | gotVerses (frag : String) (vs : List VerseRecord)

/-- Classify one chapter iteration from the value returned by
`fetch_json_with_retries` (`none` models a `None` return). -/
def classifyStep (parse : String → Node) (res : Option Json) : StepClass :=
  match res with
  | none => .fetchFail
  | some d =>
    if d.falsy then .fetchFail
    else
      match computeHtmlContent d with
      | none => .contentAbsent
      | some v =>
        if v.falsy then .contentAbsent
        else
          match v with
          | .str s =>
            match extract_verses_from_chapter_html (parse s) with
            | [] => .emptyVerses s
            | r :: vs => .gotVerses s (r :: vs)
          | _ => .crashStep v

/-- Terminal condition of one book: ran through the whole chapter list,
broke out on absent content, or raised on a non-string fragment. -/
inductive BookState where
  | completed
  | stoppedEarly
  | crashed
deriving Repr, DecidableEq

/-- Observable outcome of the chapter loop for one book: the chapters
for which a fetch was issued (in order), the `raw_html_accumulator`
contents, the `book_out` entries as (chapter, verses) pairs, and how
the loop ended. -/
structure BookRun where
  fetched : List Nat
  raws : List Json
  results : List (Nat × List VerseRecord)
  state : BookState

/-- The chapter loop of `scrape_version` for one book.  `env ch` is the
value `fetch_json_with_retries` returns for chapter `ch`; `parse` is
BeautifulSoup parsing of a fragment. -/
def runBook (parse : String → Node) (env : Nat → Option Json) :
    List Nat → BookRun
  | [] => ⟨[], [], [], .completed⟩
  | ch :: rest =>
    match classifyStep parse (env ch) with
    | .fetchFail =>
      let r := runBook parse env rest
      ⟨ch :: r.fetched, r.raws, r.results, r.state⟩
    | .contentAbsent => ⟨[ch], [], [], .stoppedEarly⟩
    | .crashStep v => ⟨[ch], [v], [], .crashed⟩
    | .emptyVerses frag =>
      let r := runBook parse env rest
      ⟨ch :: r.fetched, .str frag :: r.raws, r.results, r.state⟩
    | .gotVerses frag vs =>
      let r := runBook parse env rest
      ⟨ch :: r.fetched, .str frag :: r.raws, (ch, vs) :: r.results, r.state⟩

/-- The truthy located fragment value of a fetch result, independent of
any extraction: `none` when the fetch failed, the document was falsy,
or no truthy `html_content` was located. -/
def locatedFragment (res : Option Json) : Option Json :=
  match res with
  | none => none
  | some d =>
    if d.falsy then none
    else
      match computeHtmlContent d with
      | none => none
      | some v => if v.falsy then none else some v

/-- Does this step continue to the next chapter (as opposed to breaking
out or raising)? -/
def StepClass.continues : StepClass → Bool
  | .fetchFail => true
  | .emptyVerses _ => true
  | .gotVerses _ _ => true
  | _ => false

/-- The script of the concrete C2 scenario: two garbage bodies, then a
decodable payload. -/
def garbageTwiceScript : Nat → AttemptOutcome :=
  fun n => if n < 2 then .badBody else .goodBody (.str "payload3")

/-- A remote that always fails at the transport level. -/
def allNetErrScript : Nat → AttemptOutcome := fun _ => .netErr

/-- A remote that always answers with a body that fails JSON decoding. -/
def allBadBodyScript : Nat → AttemptOutcome := fun _ => .badBody

/-- The chapter metadata of the C4 counterexample: three canonical
entries with labels `"3"`, `"1"`, `"0"` — each passes the
`isdigit` filter, so the output is `[3, 1, 0]`. -/
def counterMeta : List ChapterMeta :=
  [⟨some "3", none⟩, ⟨some "1", none⟩, ⟨some "0", none⟩]

/-- The raw value a step appends to `raw_html_accumulator` (`none` when
it appends nothing): the located fragment of the classified step. -/
def stepRaw : StepClass → Option Json
  | .crashStep v => some v
  | .emptyVerses f => some (.str f)
  | .gotVerses f _ => some (.str f)
  | _ => none

/-- A degenerate BeautifulSoup stand-in used by concrete scenarios: every
fragment parses to a bare text node (so extraction finds no verse
containers). -/
def trivialParse : String → Node := fun _ => .text ""

/-- A chapter document whose `pageProps` value is a string: the
`.get("chapterInfo", {})` call raises on it, the source catches the
exception, and the chapter counts as content-absent. -/
def absentDoc : Json := .obj [("pageProps", .str "oops")]

/-- A chapter document carrying a fragment `"frag"` at the expected
`pageProps.chapterInfo.content` path. -/
def contentDoc : Json :=
  .obj [("pageProps", .obj [("chapterInfo", .obj [("content", .str "frag")])])]

/-- Environment of the C1 scenario: chapter 1 fails to fetch, chapter 2
returns a document with no fragment, chapter 3 is never reached. -/
def wenvStop : Nat → Option Json :=
  fun ch => if ch == 2 then some absentDoc else none

/-- Environment of the C6 scenario: chapter 1 fails to fetch, the other
chapters return a fragment that extracts to zero verses. -/
def wenvSkip : Nat → Option Json :=
  fun ch => if ch == 1 then none else some contentDoc

/-- Environment of the C9 scenario: chapter 1 returns a falsy decoded
document (JSON `null`), chapter 2 a document with no fragment. -/
def wenvFalsy : Nat → Option Json :=
  fun ch => if ch == 1 then some .null else some absentDoc

/-! ## Fetcher lemmas and claims C2, C7 -/

/-- The attempt counter of the retry loop never exceeds the starting
index plus the remaining attempts. -/
theorem fetchFrom_attempts_le (script : Nat → AttemptOutcome) (backoff : Nat) :
    ∀ left attempt,
      (fetchFrom script backoff left attempt).attemptsMade ≤ attempt + left := by
  intro left
  induction left with
  | zero => intro a; simp [fetchFrom]
  | succ n ih =>
    intro a
    cases h : script a with
    | goodBody p => simp [fetchFrom, h]
    | badBody =>
      have := ih (a + 1)
      simp only [fetchFrom, h]
      omega
    | netErr =>
      have := ih (a + 1)
      simp only [fetchFrom, h]
      omega

/-- A run of decode failures followed by a decodable payload: the loop
sleeps `backoff * (attempt + 1)` after each garbage attempt and returns
the first decodable payload. -/
theorem fetchFrom_garbage_then_good (script : Nat → AttemptOutcome)
    (backoff : Nat) (p : Json) :
    ∀ k left attempt, k < left →
      (∀ j, j < k → script (attempt + j) = .badBody) →
      script (attempt + k) = .goodBody p →
      fetchFrom script backoff left attempt =
        ⟨some p, (List.range k).map (fun j => backoff * (attempt + j + 1)),
          attempt + k + 1⟩ := by
  intro k
  induction k with
  | zero =>
    intro left a hlt hbad hgood
    obtain ⟨l, rfl⟩ : ∃ l, left = l + 1 := ⟨left - 1, by omega⟩
    have h0 : script a = .goodBody p := by simpa using hgood
    simp [fetchFrom, h0]
  | succ k ih =>
    intro left a hlt hbad hgood
    obtain ⟨l, rfl⟩ : ∃ l, left = l + 1 := ⟨left - 1, by omega⟩
    have h0 : script a = .badBody := by simpa using hbad 0 (by omega)
    have hbad2 : ∀ j, j < k → script (a + 1 + j) = .badBody := by
      intro j hj
      have h2 := hbad (j + 1) (by omega)
      have h3 : a + (j + 1) = a + 1 + j := by omega
      rwa [h3] at h2
    have hgood2 : script (a + 1 + k) = .goodBody p := by
      have h3 : a + (k + 1) = a + 1 + k := by omega
      rwa [h3] at hgood
    have hrec := ih l (a + 1) (by omega) hbad2 hgood2
    simp only [fetchFrom, h0, hrec]
    have hw : (List.range (k + 1)).map (fun j => backoff * (a + j + 1)) =
        backoff * (a + 1) :: (List.range k).map (fun j => backoff * (a + 1 + j + 1)) := by
      rw [List.range_succ_eq_map, List.map_cons, List.map_map]
      refine congrArg (fun w => backoff * (a + 1) :: w) ?_
      refine List.map_congr_left ?_
      intro j _
      have h5 : a + (j + 1) + 1 = a + 1 + j + 1 := by omega
      simp [Function.comp_def, h5]
    rw [hw]
    have h6 : a + (k + 1) + 1 = a + 1 + k + 1 := by omega
    rw [h6]

/-- C2: when the body of a response fails JSON decoding, the fetcher
sleeps `backoff * attemptNumber` seconds (1-based attempt number,
linearly increasing) and retries; the first response whose body decodes
is returned immediately as the result; and the number of attempts never
exceeds `retries`.  In particular, `k` garbage responses followed by a
decodable payload within the retry budget yield that payload after
waits `backoff*1, ..., backoff*k`. -/
theorem fetch_garbage_retry_then_success (retries backoff k : Nat)
    (script : Nat → AttemptOutcome) (p : Json)
    (hk : k < retries)
    (hbad : ∀ j, j < k → script j = .badBody)
    (hgood : script k = .goodBody p) :
    fetch_json_with_retries script retries backoff =
      ⟨some p, (List.range k).map (fun j => backoff * (j + 1)), k + 1⟩ ∧
    k + 1 ≤ retries ∧
    ∀ script2 : Nat → AttemptOutcome,
      (fetch_json_with_retries script2 retries backoff).attemptsMade ≤ retries := by
  refine ⟨?_, by omega, ?_⟩
  · have h := fetchFrom_garbage_then_good script backoff p k retries 0 hk
      (by simpa using hbad) (by simpa using hgood)
    simpa [fetch_json_with_retries] using h
  · intro script2
    simpa using fetchFrom_attempts_le script2 backoff retries 0


/-- Witness for C2: with `maxRetries = 3` and garbage on the first two
attempts, the fetcher succeeds on the third attempt with its payload,
having waited 5 then 10 seconds, using exactly 3 attempts. -/
theorem fetch_garbage_retry_then_success_witness :
    fetch_json_with_retries garbageTwiceScript 3 5 =
      ⟨some (.str "payload3"), [5, 10], 3⟩ := by
  have h := (fetch_garbage_retry_then_success 3 5 2 garbageTwiceScript
    (.str "payload3") (by omega)
    (fun j hj => by simp [garbageTwiceScript, hj])
    (by simp [garbageTwiceScript])).1
  rw [h]
  rfl



/-- C7 counterexample: exhausting the retries returns the bare failure
value `None` in both failure modes — the returned value after all-network
failures is identical to the one after all-undecodable bodies, so the
return carries no `network` / `unparsable` reason distinction. -/
theorem fetch_exhaustion_no_reason_counterexample :
    (fetch_json_with_retries allNetErrScript 3 5).result = none ∧
    (fetch_json_with_retries allBadBodyScript 3 5).result = none ∧
    (fetch_json_with_retries allNetErrScript 3 5).result =
      (fetch_json_with_retries allBadBodyScript 3 5).result :=
  ⟨rfl, rfl, rfl⟩

/-- Exhausting the retry budget without any decodable body returns `none`. -/
theorem fetchFrom_exhaust_none (script : Nat → AttemptOutcome) (backoff : Nat) :
    ∀ left attempt,
      (∀ j, attempt ≤ j → j < attempt + left → (script j).isGood = false) →
      (fetchFrom script backoff left attempt).result = none := by
  intro left
  induction left with
  | zero => intro a _; simp [fetchFrom]
  | succ n ih =>
    intro a h
    cases hs : script a with
    | goodBody p =>
      have := h a (by omega) (by omega)
      rw [hs] at this
      simp [AttemptOutcome.isGood] at this
    | badBody =>
      simp only [fetchFrom, hs]
      exact ih (a + 1) (fun j h1 h2 => h j (by omega) (by omega))
    | netErr =>
      simp only [fetchFrom, hs]
      exact ih (a + 1) (fun j h1 h2 => h j (by omega) (by omega))

/-- C7 amended: when the fetcher exhausts its retries — whether on
transport-level failures, undecodable bodies, or any mix — it returns the
bare value `None`; no reason is attached, and the two exhaustion modes
are indistinguishable in the returned value. -/
theorem fetch_exhaustion_returns_bare_none (retries backoff : Nat)
    (s1 s2 : Nat → AttemptOutcome)
    (h1 : ∀ j, j < retries → (s1 j).isGood = false)
    (h2 : ∀ j, j < retries → (s2 j).isGood = false) :
    (fetch_json_with_retries s1 retries backoff).result = none ∧
    (fetch_json_with_retries s1 retries backoff).result =
      (fetch_json_with_retries s2 retries backoff).result := by
  have e1 : (fetch_json_with_retries s1 retries backoff).result = none :=
    fetchFrom_exhaust_none s1 backoff retries 0 (fun j _ hj => h1 j (by omega))
  have e2 : (fetch_json_with_retries s2 retries backoff).result = none :=
    fetchFrom_exhaust_none s2 backoff retries 0 (fun j _ hj => h2 j (by omega))
  exact ⟨e1, e1.trans e2.symm⟩

/-- Witness for the amended C7: concrete all-network and all-garbage
scripts with 3 retries both return `None`. -/
theorem fetch_exhaustion_returns_bare_none_witness :
    (fetch_json_with_retries allNetErrScript 3 5).result = none ∧
    (fetch_json_with_retries allNetErrScript 3 5).result =
      (fetch_json_with_retries allBadBodyScript 3 5).result :=
  fetch_exhaustion_returns_bare_none 3 5 allNetErrScript allBadBodyScript
    (fun _ _ => rfl) (fun _ _ => rfl)

/-! ## Request builder: claim C8 -/

/-- C8 counterexample: for an empty book code and chapter 0 the request
builder does not reject — it returns an ordinary target (while the
spec-described builder would reject this input with `InvalidTarget`). -/
theorem request_builder_no_rejection_counterexample :
    construct_json_url "B1" "en-GB" "144" "" 0 "VC" "bible" =
      ("https://www.bible.com/_next/data/B1/en-GB/bible/144/.0.VC.json",
        ⟨"144", ".0.VC"⟩) ∧
    construct_json_url_specified "B1" "en-GB" "144" "" 0 "VC" "bible" = none := by
  constructor
  · rfl
  · simp [construct_json_url_specified]

/-- C8 amended: the request builder is a total pure mapping with no
validation and no failure modes at all: every input — the empty book
code and non-positive chapter numbers included — yields the target built
from the `book.chapter.versionCode` composite, and on exactly the inputs
the spec calls malformed the spec-described builder rejects while the
implementation still returns this target. -/
theorem request_builder_total_mapping (build_id locale version_id book : String)
    (chapter : Int) (version_code route : String) :
    construct_json_url build_id locale version_id book chapter version_code route =
      ("https://www.bible.com/_next/data/" ++ build_id ++ "/" ++ locale ++ "/" ++
          route ++ "/" ++ version_id ++ "/" ++
          (book ++ "." ++ toString chapter ++ "." ++ version_code) ++ ".json",
        ⟨version_id, book ++ "." ++ toString chapter ++ "." ++ version_code⟩) ∧
    ((book = "" ∨ chapter ≤ 0) →
      construct_json_url_specified build_id locale version_id book chapter
        version_code route = none) := by
  constructor
  · rfl
  · intro h
    simp [construct_json_url_specified, h]

/-- Witness for the amended C8: the malformed input (empty book, chapter
0) still produces a full target from the implementation. -/
theorem request_builder_total_mapping_witness :
    construct_json_url "B1" "en-GB" "144" "" 0 "VC" "bible" =
      ("https://www.bible.com/_next/data/B1/en-GB/bible/144/" ++
          ("" ++ "." ++ toString (0 : Int) ++ "." ++ "VC") ++ ".json",
        ⟨"144", "" ++ "." ++ toString (0 : Int) ++ "." ++ "VC"⟩) ∧
    construct_json_url_specified "B1" "en-GB" "144" "" 0 "VC" "bible" = none := by
  have h := request_builder_total_mapping "B1" "en-GB" "144" "" 0 "VC" "bible"
  exact ⟨h.1, h.2 (Or.inl rfl)⟩

/-! ## Catalog resolver: claims C4 and C10 -/


/-- C4 counterexample: the resolver emits the parsed labels in source
order without sorting, deduplication or a positivity check, so a
version document with canonical digit labels `"3", "1", "0"` produces
the chapter list `[3, 1, 0]` — neither strictly increasing nor composed
of positive integers. -/
theorem catalog_not_increasing_counterexample :
    fetch_books_and_chapters [⟨"GEN", "Genesis", counterMeta⟩] =
      [⟨"GEN", "Genesis", [3, 1, 0]⟩] ∧
    ¬ List.Chain' (· < ·) (resolve_chapters counterMeta) ∧
    ¬ (∀ n ∈ resolve_chapters counterMeta, 0 < n) := by
  refine ⟨rfl, ?_, ?_⟩
  · intro hc
    rw [show resolve_chapters counterMeta = [3, 1, 0] from rfl] at hc
    have h31 : (3 : Nat) < 1 := (List.chain'_cons.mp hc).1
    omega
  · intro h
    have h0 := h 0 (by rw [show resolve_chapters counterMeta = [3, 1, 0] from rfl]; simp)
    omega

/-- C4 amended: the resolver keeps exactly the entries whose canonical
flag (defaulting to true when absent) is set and whose stripped label is
a decimal digit string, in source order, each mapped to the decimal
value of its label (a natural number, possibly 0); strict increase and
positivity are inherited from the metadata, not enforced. -/
theorem catalog_keeps_canonical_digit_labels (chs : List ChapterMeta) :
    resolve_chapters chs = (chs.filter chapterPass).map chapterVal := by
  induction chs with
  | nil => rfl
  | cons ch rest ih =>
    unfold resolve_chapters at ih ⊢
    rw [List.filterMap_cons, List.filter_cons]
    by_cases h : chapterPass ch = true
    · simp [h, ih]
    · simp only [Bool.not_eq_true] at h
      simp [h, ih]

/-- C10: a chapter entry with no canonical flag at all is treated as
canonical — `ch.get("canonical", True)` defaults to true — and is kept
whenever its stripped label is a digit string, contributing its decimal
value at its position in source order. -/
theorem missing_canonical_flag_defaults_true (pre post : List ChapterMeta)
    (ch : ChapterMeta)
    (hflag : ch.canonical = none)
    (hdig : isDigits (pyStrip (ch.human.getD "")) = true) :
    resolve_chapters (pre ++ ch :: post) =
      resolve_chapters pre ++ chapterVal ch :: resolve_chapters post := by
  have hp : chapterPass ch = true := by
    unfold chapterPass
    rw [hflag, hdig]
    rfl
  unfold resolve_chapters
  rw [List.filterMap_append, List.filterMap_cons, hp]
  rfl

/-- Witness for C10: an entry `{human: "4"}` with no canonical flag is
kept between two ordinary entries. -/
theorem missing_canonical_flag_defaults_true_witness :
    resolve_chapters [⟨some "1", some true⟩, ⟨some "4", none⟩, ⟨some "x", none⟩] =
      resolve_chapters [⟨some "1", some true⟩] ++
        chapterVal ⟨some "4", none⟩ :: resolve_chapters [⟨some "x", none⟩] :=
  missing_canonical_flag_defaults_true [⟨some "1", some true⟩] [⟨some "x", none⟩]
    ⟨some "4", none⟩ rfl rfl

/-! ## Book accumulator: loop shape lemmas -/

/-- Loop unfolding: a failed fetch is skipped; everything else of the
run comes from the remaining chapters. -/
theorem runBook_cons_fetchFail (parse : String → Node) (env : Nat → Option Json)
    (ch : Nat) (rest : List Nat)
    (hc : classifyStep parse (env ch) = .fetchFail) :
    runBook parse env (ch :: rest) =
      ⟨ch :: (runBook parse env rest).fetched, (runBook parse env rest).raws,
        (runBook parse env rest).results, (runBook parse env rest).state⟩ := by
  simp [runBook, hc]

/-- Loop unfolding: absent content breaks out of the book at once. -/
theorem runBook_cons_contentAbsent (parse : String → Node) (env : Nat → Option Json)
    (ch : Nat) (rest : List Nat)
    (hc : classifyStep parse (env ch) = .contentAbsent) :
    runBook parse env (ch :: rest) = ⟨[ch], [], [], .stoppedEarly⟩ := by
  simp [runBook, hc]

/-- Loop unfolding: a non-string truthy fragment is archived and then
the extraction call raises. -/
theorem runBook_cons_crash (parse : String → Node) (env : Nat → Option Json)
    (ch : Nat) (rest : List Nat) (v : Json)
    (hc : classifyStep parse (env ch) = .crashStep v) :
    runBook parse env (ch :: rest) = ⟨[ch], [v], [], .crashed⟩ := by
  simp [runBook, hc]

/-- Loop unfolding: a fragment with zero extracted verses is archived
and the loop continues. -/
theorem runBook_cons_emptyVerses (parse : String → Node) (env : Nat → Option Json)
    (ch : Nat) (rest : List Nat) (f : String)
    (hc : classifyStep parse (env ch) = .emptyVerses f) :
    runBook parse env (ch :: rest) =
      ⟨ch :: (runBook parse env rest).fetched,
        .str f :: (runBook parse env rest).raws,
        (runBook parse env rest).results, (runBook parse env rest).state⟩ := by
  simp [runBook, hc]

/-- Loop unfolding: a fragment with extracted verses is archived and
recorded, and the loop continues. -/
theorem runBook_cons_gotVerses (parse : String → Node) (env : Nat → Option Json)
    (ch : Nat) (rest : List Nat) (f : String) (vs : List VerseRecord)
    (hc : classifyStep parse (env ch) = .gotVerses f vs) :
    runBook parse env (ch :: rest) =
      ⟨ch :: (runBook parse env rest).fetched,
        .str f :: (runBook parse env rest).raws,
        (ch, vs) :: (runBook parse env rest).results,
        (runBook parse env rest).state⟩ := by
  simp [runBook, hc]

/-- The loop always fetches the first chapter of a non-empty list. -/
theorem runBook_fetched_pos (parse : String → Node) (env : Nat → Option Json)
    (ch : Nat) (rest : List Nat) :
    0 < (runBook parse env (ch :: rest)).fetched.length := by
  cases hc : classifyStep parse (env ch) with
  | fetchFail => rw [runBook_cons_fetchFail parse env ch rest hc]; simp
  | contentAbsent => rw [runBook_cons_contentAbsent parse env ch rest hc]; simp
  | crashStep v => rw [runBook_cons_crash parse env ch rest v hc]; simp
  | emptyVerses f => rw [runBook_cons_emptyVerses parse env ch rest f hc]; simp
  | gotVerses f vs => rw [runBook_cons_gotVerses parse env ch rest f vs hc]; simp

/-- If the step at a fetched position continues the loop and a further
chapter is listed, that next chapter is fetched as well. -/
theorem runBook_continues_next (parse : String → Node) (env : Nat → Option Json) :
    ∀ (chs : List Nat) (i : Nat),
      i < (runBook parse env chs).fetched.length →
      (classifyStep parse (env ((runBook parse env chs).fetched.getD i 0))).continues = true →
      i + 1 < chs.length →
      i + 1 < (runBook parse env chs).fetched.length := by
  intro chs
  induction chs with
  | nil => intro i hi _ _; simp [runBook] at hi
  | cons ch rest ih =>
    intro i hi hcont hnext
    cases hc : classifyStep parse (env ch) with
    | contentAbsent =>
      rw [runBook_cons_contentAbsent parse env ch rest hc] at hi hcont ⊢
      cases i with
      | zero =>
        simp only [List.getD_cons_zero] at hcont
        rw [hc] at hcont
        simp [StepClass.continues] at hcont
      | succ i => simp at hi
    | crashStep v =>
      rw [runBook_cons_crash parse env ch rest v hc] at hi hcont ⊢
      cases i with
      | zero =>
        simp only [List.getD_cons_zero] at hcont
        rw [hc] at hcont
        simp [StepClass.continues] at hcont
      | succ i => simp at hi
    | fetchFail =>
      rw [runBook_cons_fetchFail parse env ch rest hc] at hi hcont ⊢
      cases i with
      | zero =>
        simp only [List.length_cons] at hnext ⊢
        cases rest with
        | nil => simp at hnext
        | cons c2 rest2 =>
          have hpos := runBook_fetched_pos parse env c2 rest2
          omega
      | succ i =>
        simp only [List.getD_cons_succ] at hcont
        simp only [List.length_cons] at hi hnext ⊢
        have hnext2 : i + 1 < rest.length := by omega
        have := ih i (by omega) hcont hnext2
        omega
    | emptyVerses f =>
      rw [runBook_cons_emptyVerses parse env ch rest f hc] at hi hcont ⊢
      cases i with
      | zero =>
        simp only [List.length_cons] at hnext ⊢
        cases rest with
        | nil => simp at hnext
        | cons c2 rest2 =>
          have hpos := runBook_fetched_pos parse env c2 rest2
          omega
      | succ i =>
        simp only [List.getD_cons_succ] at hcont
        simp only [List.length_cons] at hi hnext ⊢
        have hnext2 : i + 1 < rest.length := by omega
        have := ih i (by omega) hcont hnext2
        omega
    | gotVerses f vs =>
      rw [runBook_cons_gotVerses parse env ch rest f vs hc] at hi hcont ⊢
      cases i with
      | zero =>
        simp only [List.length_cons] at hnext ⊢
        cases rest with
        | nil => simp at hnext
        | cons c2 rest2 =>
          have hpos := runBook_fetched_pos parse env c2 rest2
          omega
      | succ i =>
        simp only [List.getD_cons_succ] at hcont
        simp only [List.length_cons] at hi hnext ⊢
        have hnext2 : i + 1 < rest.length := by omega
        have := ih i (by omega) hcont hnext2
        omega

/-- Every recorded `(chapter, verses)` pair comes from a step whose
classification is `gotVerses` with exactly those verses. -/
theorem runBook_results_classify (parse : String → Node) (env : Nat → Option Json) :
    ∀ (chs : List Nat) (c : Nat) (vs : List VerseRecord),
      (c, vs) ∈ (runBook parse env chs).results →
      ∃ f, classifyStep parse (env c) = .gotVerses f vs := by
  intro chs
  induction chs with
  | nil => intro c vs h; simp [runBook] at h
  | cons ch rest ih =>
    intro c vs hmem
    cases hc : classifyStep parse (env ch) with
    | fetchFail =>
      rw [runBook_cons_fetchFail parse env ch rest hc] at hmem
      exact ih c vs hmem
    | contentAbsent =>
      rw [runBook_cons_contentAbsent parse env ch rest hc] at hmem
      simp at hmem
    | crashStep v =>
      rw [runBook_cons_crash parse env ch rest v hc] at hmem
      simp at hmem
    | emptyVerses f =>
      rw [runBook_cons_emptyVerses parse env ch rest f hc] at hmem
      exact ih c vs hmem
    | gotVerses f vs0 =>
      rw [runBook_cons_gotVerses parse env ch rest f vs0 hc] at hmem
      rcases List.mem_cons.mp hmem with heq | hmem2
      · have h1 : c = ch := congrArg Prod.fst heq
        have h2 : vs = vs0 := congrArg Prod.snd heq
        subst h1
        subst h2
        exact ⟨f, hc⟩
      · exact ih c vs hmem2

/-- The value a step archives is exactly the located truthy fragment of
its fetch result walk, whatever `parse` does. -/
theorem locatedFragment_eq_stepRaw (parse : String → Node) (res : Option Json) :
    locatedFragment res = stepRaw (classifyStep parse res) := by
  cases res with
  | none => rfl
  | some d =>
    unfold locatedFragment classifyStep
    by_cases hf : d.falsy = true
    · simp [hf, stepRaw]
    · simp only [Bool.not_eq_true] at hf
      simp only [hf, Bool.false_eq_true, if_false]
      cases hc : computeHtmlContent d with
      | none => simp [stepRaw]
      | some v =>
        by_cases hv : v.falsy = true
        · simp [hv, stepRaw]
        · simp only [Bool.not_eq_true] at hv
          simp only [hv, Bool.false_eq_true, if_false]
          cases v with
          | str s =>
            cases he : extract_verses_from_chapter_html (parse s) with
            | nil => simp [he, stepRaw]
            | cons a l => simp [he, stepRaw]
          | null => simp [stepRaw]
          | bool b => simp [stepRaw]
          | num n => simp [stepRaw]
          | arr items => simp [stepRaw]
          | obj entries => simp [stepRaw]

/-! ## Claims C1, C5, C6, C9 about the chapter loop -/

/-- C1: once a successfully fetched chapter document yields no markup
fragment (content absent), the loop breaks out of the book: the
content-absent chapter is the last chapter for which a fetch was issued
— every remaining chapter of the book is abandoned — and the book ends
in the stopped-early state. -/
theorem scrape_stops_on_content_absent (parse : String → Node)
    (env : Nat → Option Json) :
    ∀ (chs : List Nat) (i : Nat),
      i < (runBook parse env chs).fetched.length →
      classifyStep parse (env ((runBook parse env chs).fetched.getD i 0)) =
        .contentAbsent →
      (runBook parse env chs).fetched.length = i + 1 ∧
      (runBook parse env chs).state = .stoppedEarly := by
  intro chs
  induction chs with
  | nil => intro i hi _; simp [runBook] at hi
  | cons ch rest ih =>
    intro i hi habs
    cases hc : classifyStep parse (env ch) with
    | contentAbsent =>
      rw [runBook_cons_contentAbsent parse env ch rest hc] at hi habs ⊢
      cases i with
      | zero => exact ⟨rfl, rfl⟩
      | succ i => simp at hi
    | crashStep v =>
      rw [runBook_cons_crash parse env ch rest v hc] at hi habs ⊢
      cases i with
      | zero =>
        simp only [List.getD_cons_zero] at habs
        rw [hc] at habs
        exact StepClass.noConfusion habs
      | succ i => simp at hi
    | fetchFail =>
      rw [runBook_cons_fetchFail parse env ch rest hc] at hi habs ⊢
      cases i with
      | zero =>
        simp only [List.getD_cons_zero] at habs
        rw [hc] at habs
        exact StepClass.noConfusion habs
      | succ i =>
        simp only [List.getD_cons_succ] at habs
        simp only [List.length_cons] at hi ⊢
        have h := ih i (by omega) habs
        exact ⟨by omega, h.2⟩
    | emptyVerses f =>
      rw [runBook_cons_emptyVerses parse env ch rest f hc] at hi habs ⊢
      cases i with
      | zero =>
        simp only [List.getD_cons_zero] at habs
        rw [hc] at habs
        exact StepClass.noConfusion habs
      | succ i =>
        simp only [List.getD_cons_succ] at habs
        simp only [List.length_cons] at hi ⊢
        have h := ih i (by omega) habs
        exact ⟨by omega, h.2⟩
    | gotVerses f vs =>
      rw [runBook_cons_gotVerses parse env ch rest f vs hc] at hi habs ⊢
      cases i with
      | zero =>
        simp only [List.getD_cons_zero] at habs
        rw [hc] at habs
        exact StepClass.noConfusion habs
      | succ i =>
        simp only [List.getD_cons_succ] at habs
        simp only [List.length_cons] at hi ⊢
        have h := ih i (by omega) habs
        exact ⟨by omega, h.2⟩

/-- Witness for C1: chapters `[1, 2, 3]`, chapter 1 fails to fetch,
chapter 2 is content-absent — the fetch list ends at chapter 2 (chapter
3 is abandoned) and the book state is stopped-early. -/
theorem scrape_stops_on_content_absent_witness :
    (runBook trivialParse wenvStop [1, 2, 3]).fetched.length = 1 + 1 ∧
    (runBook trivialParse wenvStop [1, 2, 3]).state = .stoppedEarly :=
  scrape_stops_on_content_absent trivialParse wenvStop [1, 2, 3] 1
    (by decide) rfl

/-- C5: the raw-fragment archive of a book run equals, entry for entry
and in fetch order, the located truthy fragments of the fetched
chapters.  The right-hand side does not mention `parse`, so the archive
is independent of everything verse extraction does: a chapter whose
extraction yields zero verses (or even raises) still contributes its
fragment, and chapters with no fragment contribute nothing. -/
theorem raw_archive_exactly_fragments (parse : String → Node)
    (env : Nat → Option Json) :
    ∀ chs : List Nat,
      (runBook parse env chs).raws =
        (runBook parse env chs).fetched.filterMap
          fun c => locatedFragment (env c) := by
  intro chs
  induction chs with
  | nil => rfl
  | cons ch rest ih =>
    have hfrag := locatedFragment_eq_stepRaw parse (env ch)
    cases hc : classifyStep parse (env ch) with
    | fetchFail =>
      have hlo : locatedFragment (env ch) = none := by
        rw [hfrag, hc]
        rfl
      rw [runBook_cons_fetchFail parse env ch rest hc]
      simp [List.filterMap_cons, hlo, ih]
    | contentAbsent =>
      have hlo : locatedFragment (env ch) = none := by
        rw [hfrag, hc]
        rfl
      rw [runBook_cons_contentAbsent parse env ch rest hc]
      simp [List.filterMap_cons, hlo]
    | crashStep v =>
      have hlo : locatedFragment (env ch) = some v := by
        rw [hfrag, hc]
        rfl
      rw [runBook_cons_crash parse env ch rest v hc]
      simp [List.filterMap_cons, hlo]
    | emptyVerses f =>
      have hlo : locatedFragment (env ch) = some (.str f) := by
        rw [hfrag, hc]
        rfl
      rw [runBook_cons_emptyVerses parse env ch rest f hc]
      simp [List.filterMap_cons, hlo, ih]
    | gotVerses f vs =>
      have hlo : locatedFragment (env ch) = some (.str f) := by
        rw [hfrag, hc]
        rfl
      rw [runBook_cons_gotVerses parse env ch rest f vs hc]
      simp [List.filterMap_cons, hlo, ih]

/-- C6: neither a failed fetch nor a zero-verse extraction stops the
book: such a chapter contributes no result entry, and when another
chapter is listed after it, that next chapter is still fetched. -/
theorem failed_or_empty_chapter_skipped (parse : String → Node)
    (env : Nat → Option Json) (chs : List Nat) (i : Nat)
    (hi : i < (runBook parse env chs).fetched.length)
    (hcls :
      classifyStep parse (env ((runBook parse env chs).fetched.getD i 0)) =
          .fetchFail ∨
        ∃ f, classifyStep parse (env ((runBook parse env chs).fetched.getD i 0)) =
          .emptyVerses f) :
    (i + 1 < chs.length → i + 1 < (runBook parse env chs).fetched.length) ∧
    ∀ vs, ((runBook parse env chs).fetched.getD i 0, vs) ∉
      (runBook parse env chs).results := by
  constructor
  · intro hnext
    refine runBook_continues_next parse env chs i hi ?_ hnext
    rcases hcls with h | ⟨f, h⟩ <;> rw [h] <;> rfl
  · intro vs hmem
    obtain ⟨f, hgot⟩ := runBook_results_classify parse env chs _ vs hmem
    rcases hcls with h | ⟨f2, h⟩
    · rw [h] at hgot
      exact StepClass.noConfusion hgot
    · rw [h] at hgot
      exact StepClass.noConfusion hgot

/-- The classification of the concrete fragment document under the
degenerate parser: the fragment is located but extracts to no verses. -/
theorem classify_contentDoc :
    classifyStep trivialParse (some contentDoc) = .emptyVerses "frag" := by
  have hex : extract_verses_from_chapter_html (trivialParse "frag") = [] := by
    simp only [trivialParse, extract_verses_from_chapter_html, extractRecordsList]
  simp only [classifyStep,
    show computeHtmlContent contentDoc = some (.str "frag") from rfl,
    show contentDoc.falsy = false from rfl,
    show (Json.str "frag").falsy = false from rfl, hex,
    Bool.false_eq_true, if_false]

/-- The C6 scenario run: all three chapters are fetched and no verse
records are produced. -/
theorem runBook_wenvSkip_eval :
    (runBook trivialParse wenvSkip [1, 2, 3]).fetched = [1, 2, 3] ∧
    (runBook trivialParse wenvSkip [1, 2, 3]).results = [] := by
  have hc1 : classifyStep trivialParse (wenvSkip 1) = .fetchFail := rfl
  have hc2 : classifyStep trivialParse (wenvSkip 2) = .emptyVerses "frag" := by
    rw [show wenvSkip 2 = some contentDoc from rfl]
    exact classify_contentDoc
  have hc3 : classifyStep trivialParse (wenvSkip 3) = .emptyVerses "frag" := by
    rw [show wenvSkip 3 = some contentDoc from rfl]
    exact classify_contentDoc
  have e3 := runBook_cons_emptyVerses trivialParse wenvSkip 3 [] "frag" hc3
  have e2 := runBook_cons_emptyVerses trivialParse wenvSkip 2 [3] "frag" hc2
  have e1 := runBook_cons_fetchFail trivialParse wenvSkip 1 [2, 3] hc1
  rw [e1, e2, e3]
  exact ⟨rfl, rfl⟩

/-- Witness for C6: in a run with a failed fetch on chapter 1 and a
zero-verse extraction on chapter 2, position 1 (chapter 2) neither
stops the book — chapter 3 is fetched — nor records a result. -/
theorem failed_or_empty_chapter_skipped_witness :
    (1 + 1 < ([1, 2, 3] : List Nat).length →
      1 + 1 < (runBook trivialParse wenvSkip [1, 2, 3]).fetched.length) ∧
    ∀ vs, ((runBook trivialParse wenvSkip [1, 2, 3]).fetched.getD 1 0, vs) ∉
      (runBook trivialParse wenvSkip [1, 2, 3]).results :=
  failed_or_empty_chapter_skipped trivialParse wenvSkip [1, 2, 3] 1
    (by rw [runBook_wenvSkip_eval.1]; decide)
    (Or.inr ⟨"frag", by rw [runBook_wenvSkip_eval.1]; exact classify_contentDoc⟩)

/-- C9: a chapter whose fetch succeeds but whose decoded document is
falsy (for example `null`, `{}` or `[]`) is classified as a fetch
failure — skipped, with the next listed chapter still fetched — rather
than as absent content stopping the book. -/
theorem falsy_document_treated_as_fetch_failure (parse : String → Node)
    (env : Nat → Option Json) (chs : List Nat) (i : Nat) (d : Json)
    (hi : i < (runBook parse env chs).fetched.length)
    (henv : env ((runBook parse env chs).fetched.getD i 0) = some d)
    (hf : d.falsy = true) :
    classifyStep parse (env ((runBook parse env chs).fetched.getD i 0)) =
      .fetchFail ∧
    (i + 1 < chs.length → i + 1 < (runBook parse env chs).fetched.length) := by
  have hcls : classifyStep parse (env ((runBook parse env chs).fetched.getD i 0)) =
      .fetchFail := by
    rw [henv]
    simp [classifyStep, hf]
  refine ⟨hcls, fun hnext => runBook_continues_next parse env chs i hi ?_ hnext⟩
  rw [hcls]
  rfl

/-- Witness for C9: chapter 1 returns JSON `null` (falsy): it is
classified as a fetch failure and chapter 2 is still fetched. -/
theorem falsy_document_treated_as_fetch_failure_witness :
    classifyStep trivialParse
        (wenvFalsy ((runBook trivialParse wenvFalsy [1, 2]).fetched.getD 0 0)) =
      .fetchFail ∧
    (0 + 1 < ([1, 2] : List Nat).length →
      0 + 1 < (runBook trivialParse wenvFalsy [1, 2]).fetched.length) :=
  falsy_document_treated_as_fetch_failure trivialParse wenvFalsy [1, 2] 0 .null
    (by decide) rfl rfl

/-! ## Claim C3: footnote content never reaches extracted verse text -/

/-- The selector match of an element does not look at its children. -/
theorem matchesSel_elem (tag cls t : String) (cs : List String) (ch : List Node) :
    matchesSel tag cls (.elem t cs ch) = (t == tag && cs.contains cls) := rfl

/-- Everything below a doomed position was destroyed by an ancestor
decompose before being visited: no records come out of it. -/
theorem extractRecordsList_doomed :
    ∀ (u d : Bool) (l : List Node), d = true → extractRecordsList u d l = [] := by
  intro u d l
  induction u, d, l using extractRecordsList.induct with
  | case1 u d => intro _; simp [extractRecordsList]
  | case2 u d s rest ih => intro hd; simpa [extractRecordsList] using ih hd
  | case3 u d t cs ch rest ih1 ih2 =>
    intro hd
    subst hd
    have hz := ih1 (by simp)
    simp only [Bool.true_or] at hz
    simp [extractRecordsList, hz, ih2 rfl]

/-- Below a verse container, erasing the contents of the notes commutes
with decomposing the notes: decomposition removes them whole anyway. -/
theorem stripNotesList_erase :
    ∀ (u : Bool) (l : List Node), u = true →
      stripNotesList (eraseNoteContentsList u l) = stripNotesList l := by
  intro u l
  induction u, l using eraseNoteContentsList.induct with
  | case1 u => intro _; simp [eraseNoteContentsList]
  | case2 u s rest ih =>
    intro hu
    simp [eraseNoteContentsList, stripNotesList, ih hu]
  | case3 u t cs ch rest ih1 ih2 =>
    intro hu
    subst hu
    have ih2A := ih2 rfl
    by_cases hn : t = "span" ∧ "note" ∈ cs
    · obtain ⟨h1, h2⟩ := hn
      subst h1
      simp [eraseNoteContentsList, stripNotesList, matchesSel_elem, h2, ih2A]
    · have ih1A : stripNotesList (eraseNoteContentsList
          (true || matchesSel "span" "verse" (Node.elem t cs ch)) ch) =
          stripNotesList ch := ih1 (by simp)
      simp only [Bool.true_or] at ih1A
      simp [eraseNoteContentsList, stripNotesList, matchesSel_elem, hn, ih1A, ih2A]

/-- The record of a verse container does not change when the contents
of the notes below it are erased: the extraction decomposes those notes
before reading any text. -/
theorem extractVerse_erase (t : String) (cs : List String) (ch : List Node)
    (u : Bool) (hflag : u = true) :
    extractVerse (.elem t cs (eraseNoteContentsList u ch)) =
      extractVerse (.elem t cs ch) := by
  have h : stripNotes (Node.elem t cs (eraseNoteContentsList u ch)) =
      stripNotes (Node.elem t cs ch) := by
    simp [stripNotes, stripNotesList_erase u ch hflag]
  unfold extractVerse
  rw [h]

/-- Erasing the contents of every footnote below a verse container
changes nothing in the extracted record sequence. -/
theorem extractRecordsList_erase :
    ∀ (u : Bool) (l : List Node) (d : Bool),
      extractRecordsList u d (eraseNoteContentsList u l) =
        extractRecordsList u d l := by
  intro u l
  induction u, l using eraseNoteContentsList.induct with
  | case1 u => intro d; simp [eraseNoteContentsList]
  | case2 u s rest ih =>
    intro d
    simp [eraseNoteContentsList, extractRecordsList, ih d]
  | case3 u t cs ch rest ih1 ih2 =>
    intro d
    by_cases hn : (t = "span" ∧ "note" ∈ cs) ∧ u = true
    · obtain ⟨⟨h1, h2⟩, hu⟩ := hn
      subst h1
      subst hu
      simp [eraseNoteContentsList, extractRecordsList, matchesSel_elem, h2,
        extractRecordsList_doomed, ih2]
    · by_cases hv : t = "span" ∧ "verse" ∈ cs
      · obtain ⟨h1, h2⟩ := hv
        subst h1
        have hEV := extractVerse_erase "span" cs ch true rfl
        have ih1A : ∀ d2, extractRecordsList true d2
            (eraseNoteContentsList true ch) = extractRecordsList true d2 ch := by
          intro d2
          have := ih1 d2
          simpa [matchesSel_elem, h2] using this
        by_cases hu : u = true
        · subst hu
          simp only [true_and, and_true, eq_self_iff_true] at hn
          simp [eraseNoteContentsList, extractRecordsList, matchesSel_elem, h2, hn,
            hEV, ih1A, ih2]
        · have hu2 : u = false := by
            cases u
            · rfl
            · exact absurd rfl hu
          subst hu2
          simp [eraseNoteContentsList, extractRecordsList, matchesSel_elem, h2,
            hEV, ih1A, ih2]
      · have ih1A : ∀ d2 : Bool, extractRecordsList
            (u || (t == "span" && decide ("verse" ∈ cs))) d2
            (eraseNoteContentsList
              (u || (t == "span" && decide ("verse" ∈ cs))) ch) =
            extractRecordsList
              (u || (t == "span" && decide ("verse" ∈ cs))) d2 ch := by
          intro d2
          simpa [matchesSel_elem] using ih1 d2
        simp [eraseNoteContentsList, extractRecordsList, matchesSel_elem, hn, hv,
          ih2]
        exact ih1A _

/-- `eraseNoteContentsList` on the singleton forest of the root. -/
theorem eraseNoteContentsList_singleton (u : Bool) (n : Node) :
    eraseNoteContentsList u [n] = [eraseNoteContents u n] := by
  cases n with
  | text s => simp [eraseNoteContentsList, eraseNoteContents]
  | elem t cs ch => simp [eraseNoteContentsList, eraseNoteContents]

/-- C3: the text of footnote sub-elements below a verse container never
appears in any extracted record: the whole extraction output is
invariant under erasing the contents of every such footnote, so no
character of those footnotes can reach a VerseRecord. -/
theorem footnote_text_never_in_verses (root : Node) :
    extract_verses_from_chapter_html (eraseNoteContents false root) =
      extract_verses_from_chapter_html root := by
  unfold extract_verses_from_chapter_html
  rw [← eraseNoteContentsList_singleton false root]
  exact extractRecordsList_erase false [root] false
